import Mathlib

/-!
Shallow embedding of the `clickonce` Go package (clickonce.go) and proofs
about its manifest-traversal, download-verification and persistence logic.

Modelling conventions:
* Strings stay `String`; byte slices are `List Nat`; Go `int` is `Int`.
* Go maps become association lists kept in insertion order (iteration over a
  Go map is unordered; no stated property depends on iteration order).
* External collaborators (HTTP transport, net/url resolution, XML decoding,
  the hash functions and base64) are fields of an `Env` record; stdlib string
  and path functions are modelled directly below.
* In-place mutation of the `ClickOnce` receiver becomes explicit state
  passing: each operation returns the updated state together with the
  `error` result (`none` = nil error), and `Get` additionally returns the
  list of file writes its save step performs.
* The mutual recursion through nested manifests is bounded by a `fuel`
  parameter consumed once per `retrieveAllDeployedFiles` pass; running out of
  fuel yields the artificial error `CoErr.FuelExhausted` (the Go code would
  simply keep recursing).
-/

set_option linter.unusedVariables false
set_option maxRecDepth 8000

/-- Lookup on an association list; models a Go map read with its ok-flag. -/
def assocFind {α : Type} (m : List (String × α)) (k : String) : Option α :=
  match m with
  | [] => none
  | (k₁, v₁) :: rest => if k₁ = k then some v₁ else assocFind rest k

/-- Update-or-append on an association list; models a Go map write `m[k] = v`
(existing key keeps its position, a new key is appended). -/
def assocSet {α : Type} (m : List (String × α)) (k : String) (v : α) :
    List (String × α) :=
  match m with
  | [] => [(k, v)]
  | (k₁, v₁) :: rest =>
    if k₁ = k then (k₁, v) :: rest else (k₁, v₁) :: assocSet rest k v

/-- Models `strings.Replace(s, "\\", "/", -1)`: every backslash becomes a
forward slash. -/
def replaceBackslash (s : String) : String :=
  String.mk (s.data.map (fun c => if c = '\\' then '/' else c))

/-- Models Go `path.Base`: empty input gives ".", trailing slashes are
removed, the last slash-separated element is returned, all-slash input
gives "/". -/
def pathBase (p : String) : String :=
  if p = "" then "."
  else
    let cs := (p.data.reverse.dropWhile (fun c => c = '/')).reverse
    let last := (cs.reverse.takeWhile (fun c => c ≠ '/')).reverse
    if last = [] then "/" else String.mk last

/-- Models Go `path.Ext`: the suffix of the final slash-separated element
starting at its final dot, or "" when that element has no dot. -/
def pathExt (p : String) : String :=
  let revSeg := p.data.reverse.takeWhile (fun c => c ≠ '/')
  if revSeg.contains '.' then
    String.mk ('.' :: (revSeg.takeWhile (fun c => c ≠ '.')).reverse)
  else ""

/-- Models `strings.TrimSuffix`. -/
def trimSuffix (s suf : String) : String :=
  if List.isSuffixOf suf.data s.data then
    String.mk (s.data.take (s.data.length - suf.data.length))
  else s

/-- Models `strings.ToLower` for the ASCII algorithm identifiers involved. -/
def toLowerStr (s : String) : String := String.mk (s.data.map Char.toLower)

/-- Models `strconv.Atoi` (stdlib collaborator): an optional sign followed by
one or more decimal digits, with the value inside the signed 64-bit range;
`none` on every other input.  Note the sign may be "-": Atoi accepts
negative integers. -/
def atoi (s : String) : Option Int :=
  let signAndDigits :=
    match s.data with
    | '-' :: rest => (true, rest)
    | '+' :: rest => (false, rest)
    | cs => (false, cs)
  let neg := signAndDigits.1
  let digits := signAndDigits.2
  if digits = [] then none
  else if digits.all Char.isDigit then
    let n : Nat := digits.foldl (fun a c => a * 10 + (c.toNat - '0'.toNat)) 0
    let v : Int := if neg then -(n : Int) else (n : Int)
    if -(2 ^ 63) ≤ v ∧ v ≤ 2 ^ 63 - 1 then some v else none
  else none

/-- Models the slice of `net/url.Parse` used by `remoteFileInfo`: parsing
fails on ASCII control characters, and the `Fragment` field is the text after
the first '#' (or "" when there is none; percent-unescaping is not modelled —
the digest-algorithm URIs involved contain no escapes). -/
def urlFragment (s : String) : Option String :=
  if s.data.any (fun c => c.toNat < 32 ∨ c.toNat = 127) then none
  else some (String.mk ((s.data.dropWhile (fun c => c ≠ '#')).drop 1))

/-- Manifest file extension (clickonce.go line 103). -/
def manifestExtension : String := ".manifest"

/-- Deployed file extension appended by the suffix heuristic (line 104). -/
def deployedFileExtension : String := ".deploy"

/-- Models `isManifest` (lines 439-441). -/
def isManifest (filename : String) : Bool :=
  pathExt filename = manifestExtension

/-- The `coType` tag (lines 31-39). -/
inductive CoType where
  | AssemblyDependency
  | NonAssemblyFile
deriving DecidableEq

/-- A retrieved deployed file (lines 42-47). -/
structure DeployedFile where
  type : CoType
  content : List Nat
deriving DecidableEq

/-- The `coDigestMethod` element (lines 98-100). -/
structure CoDigestMethod where
  algorithm : String
deriving DecidableEq

/-- The `coHash` element (lines 93-96). -/
structure CoHash where
  digestMethod : CoDigestMethod
  digestValue : String
deriving DecidableEq

/-- The shared entry attributes `coBase` (lines 76-79). -/
structure CoBase where
  size : String
  hash : CoHash
deriving DecidableEq

/-- A `file` manifest entry (lines 81-84); the embedded `coBase` is the
`base` field. -/
structure CoFile where
  base : CoBase
  name : String
deriving DecidableEq

/-- A `dependentAssembly` manifest entry (lines 86-91). -/
structure CoDependentAssembly where
  base : CoBase
  codebase : String
  dependencyType : String
  allowDelayedBinding : String
deriving DecidableEq

/-- A decoded manifest, `coAssembly` (lines 71-74). -/
structure CoAssembly where
  file : List CoFile
  dependentAssembly : List CoDependentAssembly
deriving DecidableEq

/-- The two projections of a `net/url.URL` value that the package reads:
`String()` and `.Path`. -/
structure Url where
  urlString : String
  path : String
deriving DecidableEq

/-- The resolved view of a manifest entry, `remoteFile` (lines 62-67). -/
structure RemoteFile where
  url : Url
  size : Int
  digest : String
  algorithm : String
deriving DecidableEq

/-- The error values the package produces (Go uses `error` strings; the
constructors carry the data interpolated into those strings). -/
inductive CoErr where
  | AtoiError (s : String)
  | UrlError (s : String)
  | AlgorithmNotSupported (algorithm filename : String)
  | TransportError
  | NotFound (url : String)
  | SizeMismatch (filename : String) (expected : Int) (got : Nat)
  | DigestMismatch (filename : String)
  | DecodeError
  | NotInitialized
  | EmptySubsetName
  | NoneOfRequestedFound
  | NotAllRequestedFound
  | FuelExhausted
deriving DecidableEq

/-- External collaborators: HTTP transport (`fetch url = (status, body)`,
`none` for a transport error; reading and closing the response body is folded
into the fetch), URL resolution (`base.Parse(ref)`), XML manifest decoding,
the two hash functions and base64 encoding. -/
structure Env where
  fetch : String → Option (Nat × List Nat)
  resolve : Url → String → Option Url
  decode : List Nat → Option CoAssembly
  sha1 : List Nat → List Nat
  sha256 : List Nat → List Nat
  base64 : List Nat → String

/-- The session state, `ClickOnce` (lines 50-60); field defaults are the Go
zero values. The logger is omitted (an optional message sink with no effect
on any other field). -/
structure ClickOnce where
  deployedFiles : List (String × DeployedFile) := []
  subset : Option (List (String × Bool)) := none
  baseUrl : Option Url := none
  assembly : Option CoAssembly := none
  outputDir : String := ""
  noSuffix : Bool := false
  offline : Bool := false
  notFound : Nat := 0
deriving DecidableEq

/-- Models lines 513-545 of `downloadAndCheck`: read the body, compare its
length to the declared size, hash it, base64 the hash and compare to the
declared digest.  IMPORTANT: at line 500 the fallback response is bound by
`:=` to a NEW `res` that shadows the outer one, so the body read at line 513
always reads the FIRST response; this function therefore always receives the
first response's body, whichever attempt decided the status. -/
def checkBody (env : Env) (file : RemoteFile) (body : List Nat) (suffix : Bool) :
    Except CoErr (List Nat) × Bool :=
  let filename := pathBase file.url.path
  if ¬ (file.size = (body.length : Int)) then
    (.error (.SizeMismatch filename file.size body.length), suffix)
  else
    let checksum := if file.algorithm = "sha1" then env.sha1 body else env.sha256 body
    if ¬ (file.digest = env.base64 checksum) then
      (.error (.DigestMismatch filename), suffix)
    else (.ok body, suffix)

/-- Models `downloadAndCheck` (lines 473-545): reject unsupported algorithms,
append ".deploy" when the suffix hint is on and the target is not a manifest,
fetch, on 404 retry once at the URL with its extension stripped (flipping the
returned suffix hint to false when the retry's status is not 404), then run
the size/digest checks of `checkBody` on the first response's body. -/
def downloadAndCheck (env : Env) (file : RemoteFile) (suffix : Bool) :
    Except CoErr (List Nat) × Bool :=
  let filename := pathBase file.url.path
  if ¬ (file.algorithm = "sha1") ∧ ¬ (file.algorithm = "sha256") then
    (.error (.AlgorithmNotSupported file.algorithm filename), suffix)
  else
    let downloadUrl :=
      if suffix ∧ isManifest (pathBase file.url.path) = false then
        file.url.urlString ++ deployedFileExtension
      else file.url.urlString
    match env.fetch downloadUrl with
    | none => (.error .TransportError, suffix)
    | some (status, body) =>
      if status = 404 then
        let downloadUrl2 := trimSuffix downloadUrl (pathExt downloadUrl)
        match env.fetch downloadUrl2 with
        | none => (.error .TransportError, suffix)
        | some (status2, _) =>
          if status2 = 404 then (.error (.NotFound downloadUrl2), suffix)
          else checkBody env file body false
      else checkBody env file body suffix

/-- Models `remoteFileInfo` (lines 275-290): parse the declared size with
`strconv.Atoi`, parse the digest-algorithm URI and lowercase its fragment,
and package the result as a `RemoteFile`. -/
def remoteFileInfo (deployedFileUrl : Url) (deployedFile : CoBase) :
    Except CoErr RemoteFile :=
  match atoi deployedFile.size with
  | none => .error (.AtoiError deployedFile.size)
  | some size =>
    match urlFragment deployedFile.hash.digestMethod.algorithm with
    | none => .error (.UrlError deployedFile.hash.digestMethod.algorithm)
    | some frag =>
      .ok ⟨deployedFileUrl, size, deployedFile.hash.digestValue, toLowerStr frag⟩

mutual

/-- Models `retrieveDeployedFile` (lines 293-360): skip empty paths, normalize
backslashes, apply the subset filter (manifests bypass it), deduplicate on the
result mapping, resolve the URL against the session base, rebase the base URL
when the entry is an install-dependency manifest, resolve the entry, download
and verify, record the result, mark the bare filename in the subset map, and
recurse into the content when the entry is a manifest.  Structural fuel: one
unit is consumed at each entry of each traversal function (the Go code is
unbounded recursion over fetched manifests). -/
def retrieveDeployedFile (env : Env) (fuel : Nat) (co : ClickOnce)
    (deployedFilePath : String) (deployedFile : CoBase)
    (deployedFileType : CoType) : ClickOnce × Option CoErr :=
  match fuel with
  | 0 => (co, some .FuelExhausted)
  | fuel + 1 =>
    if deployedFilePath = "" then (co, none)
    else
      let deployedFilePosixPath := replaceBackslash deployedFilePath
      let deployedFileName := pathBase deployedFilePosixPath
      let manifest := isManifest deployedFileName
      if (match co.subset with
          | some m => !manifest && (assocFind m deployedFileName).isNone
          | none => false) then (co, none)
      else if (assocFind co.deployedFiles deployedFilePath).isSome then (co, none)
      else
        match co.baseUrl with
        | none => (co, some .NotInitialized)  -- Go would dereference nil here; unreachable from Get
        | some b =>
          match env.resolve b deployedFilePosixPath with
          | none => (co, some (.UrlError deployedFilePosixPath))
          | some deployedFileUrl =>
            let co :=
              if deployedFileType = .AssemblyDependency ∧ manifest = true then
                {co with baseUrl := some deployedFileUrl}
              else co
            match remoteFileInfo deployedFileUrl deployedFile with
            | .error e => (co, some e)
            | .ok rf =>
              match downloadAndCheck env rf (!co.noSuffix) with
              | (.error e, _) => (co, some e)
              | (.ok content, suffix) =>
                let co := {co with noSuffix := !suffix}
                let co :=
                  {co with deployedFiles :=
                    assocSet co.deployedFiles deployedFilePath ⟨deployedFileType, content⟩}
                let co :=
                  match co.subset with
                  | some m => {co with subset := some (assocSet m deployedFileName true)}
                  | none => co
                if manifest then subApplication env fuel co content else (co, none)
termination_by structural fuel

/-- Models `subApplication` (lines 363-375): decode a downloaded manifest and
traverse the resulting sub-assembly. -/
def subApplication (env : Env) (fuel : Nat) (co : ClickOnce)
    (manifestContent : List Nat) : ClickOnce × Option CoErr :=
  match fuel with
  | 0 => (co, some .FuelExhausted)
  | fuel + 1 =>
    match env.decode manifestContent with
    | none => (co, some .DecodeError)
    | some assembly => retrieveAllDeployedFiles env fuel co assembly
termination_by structural fuel

/-- Models `retrieveAllDeployedFiles` (lines 378-398).  NOTE: both loops there
read `if err != nil { return nil }` — the first entry error stops the pass but
is DISCARDED, and nil is returned to the caller.  The helpers below hand the
entry error back so that this wrapper can discard it exactly where the Go
code does. -/
def retrieveAllDeployedFiles (env : Env) (fuel : Nat) (co : ClickOnce)
    (assembly : CoAssembly) : ClickOnce × Option CoErr :=
  match fuel with
  | 0 => (co, some .FuelExhausted)
  | fuel + 1 =>
    match retrieveDeps env fuel co assembly.dependentAssembly with
    | (co₁, some _) => (co₁, none)  -- Go line 386: "return nil", error discarded
    | (co₁, none) =>
      match retrieveFiles env fuel co₁ assembly.file with
      | (co₂, some _) => (co₂, none)  -- Go line 393: "return nil", error discarded
      | (co₂, none) => (co₂, none)
termination_by structural fuel

/-- The dependent-assembly loop of `retrieveAllDeployedFiles` (lines 379-388):
entries not tagged "install" are skipped; the first entry error ends the loop
(returned here, discarded by the wrapper). -/
def retrieveDeps (env : Env) (fuel : Nat) (co : ClickOnce)
    (deps : List CoDependentAssembly) : ClickOnce × Option CoErr :=
  match fuel with
  | 0 => (co, some .FuelExhausted)
  | fuel + 1 =>
    match deps with
    | [] => (co, none)
    | d :: rest =>
      if ¬ (d.dependencyType = "install") then retrieveDeps env fuel co rest
      else
        match retrieveDeployedFile env fuel co d.codebase d.base .AssemblyDependency with
        | (co₁, some e) => (co₁, some e)
        | (co₁, none) => retrieveDeps env fuel co₁ rest
termination_by structural fuel

/-- The file loop of `retrieveAllDeployedFiles` (lines 390-395). -/
def retrieveFiles (env : Env) (fuel : Nat) (co : ClickOnce)
    (files : List CoFile) : ClickOnce × Option CoErr :=
  match fuel with
  | 0 => (co, some .FuelExhausted)
  | fuel + 1 =>
    match files with
    | [] => (co, none)
    | f :: rest =>
      match retrieveDeployedFile env fuel co f.name f.base .NonAssemblyFile with
      | (co₁, some e) => (co₁, some e)
      | (co₁, none) => retrieveFiles env fuel co₁ rest
termination_by structural fuel

end

/-- The loop of `initSubset` (lines 187-192): insert each name with a false
found-flag; an empty name stops the loop with an error, keeping the entries
inserted so far. -/
def initSubsetLoop (m : List (String × Bool)) (l : List String) :
    List (String × Bool) × Option CoErr :=
  match l with
  | [] => (m, none)
  | s :: rest =>
    if s = "" then (m, some .EmptySubsetName)
    else initSubsetLoop (assocSet m s false) rest

/-- Models `initSubset` (lines 185-194): the subset map is replaced by a fresh
map first, so it is installed (possibly partially filled) even when an empty
name makes the call fail. -/
def initSubset (co : ClickOnce) (subset : List String) :
    ClickOnce × Option CoErr :=
  match initSubsetLoop [] subset with
  | (m, err) => ({co with subset := some m}, err)

/-- Models `checkDownload` (lines 197-205): mark as found every subset name
that is the bare filename of an already-downloaded path. -/
def checkDownload (co : ClickOnce) : ClickOnce :=
  match co.subset with
  | none => co
  | some m =>
    {co with subset := some (co.deployedFiles.foldl
      (fun m₁ e =>
        let deployedFileName := pathBase (replaceBackslash e.1)
        if (assocFind m₁ deployedFileName).isSome then
          assocSet m₁ deployedFileName true
        else m₁) m)}

/-- Go map read `co.subset[s]`: false for a missing key or a nil map. -/
def subsetVal (subset : Option (List (String × Bool))) (s : String) : Bool :=
  match subset with
  | some m => (assocFind m s).getD false
  | none => false

/-- Models `findSubset` (lines 208-221): add the number of requested names not
marked found to the notFound counter, and fail when every requested name is
missing. -/
def findSubset (co : ClickOnce) (subset : List String) :
    ClickOnce × Option CoErr :=
  let co := {co with notFound :=
    co.notFound + subset.countP (fun s => !(subsetVal co.subset s))}
  if co.notFound = subset.length then (co, some .NoneOfRequestedFound)
  else (co, none)

/-- Models `path.Join` for the two-argument uses here; `Clean` normalization
is not modelled (saved paths are reported as directory ++ "/" ++ relative
path; no stated property inspects the joined string's internal form). -/
def pathJoin (a b : String) : String :=
  if a = "" then b else if b = "" then a else a ++ "/" ++ b

/-- Models `saveDeployedFile` (lines 401-425): returns the (path, bytes) write
it performs, or `none` when the subset filter skips the entry; `MkdirAll` and
`WriteFile` are modelled as always succeeding. -/
def saveDeployedFile (co : ClickOnce) (deployedFilePath : String)
    (content : List Nat) : Option (String × List Nat) :=
  let codebase := replaceBackslash deployedFilePath
  let deployedFileName := pathBase codebase
  match co.subset with
  | some m =>
    if (assocFind m deployedFileName).isNone then none
    else some (pathJoin co.outputDir codebase, content)
  | none => some (pathJoin co.outputDir codebase, content)

/-- Models `saveAllDeployedFiles` (lines 428-436); map iteration is
determinized to insertion order (no stated property depends on write
order). -/
def saveAllDeployedFiles (co : ClickOnce) : List (String × List Nat) :=
  co.deployedFiles.filterMap (fun e => saveDeployedFile co e.1 e.2.content)

/-- Models `Get` (lines 225-272): guard initialization, install the subset
filter for a non-empty subset, traverse (or, when offline, only mark what is
already downloaded), zero the notFound counter, check subset availability,
run the save step when an output directory is configured, and fail when some
requested files are missing.  The writes performed by the save step are
returned alongside the final state and the error. -/
def Get (env : Env) (fuel : Nat) (co : ClickOnce) (subset : List String) :
    ClickOnce × List (String × List Nat) × Option CoErr :=
  if co.baseUrl.isNone ∨ co.assembly.isNone then (co, [], some .NotInitialized)
  else
    let validSubset := !subset.isEmpty  -- Go: subset != nil && len(subset) != 0
    match (if validSubset then initSubset co subset else (co, none)) with
    | (co, some e) => (co, [], some e)
    | (co, none) =>
      let afterRetrieve :=
        if !co.offline then
          match co.assembly with
          | some assembly => retrieveAllDeployedFiles env fuel co assembly
          | none => (co, some .NotInitialized)  -- excluded by the guard above
        else ((if validSubset then checkDownload co else co), none)
      match afterRetrieve with
      | (co, some e) => (co, [], some e)
      | (co, none) =>
        let co := {co with notFound := 0}
        match (if validSubset then findSubset co subset else (co, none)) with
        | (co, some e) => (co, [], some e)
        | (co, none) =>
          let writes :=
            if ¬ (co.outputDir = "") then saveAllDeployedFiles co else []
          if validSubset ∧ ¬ (co.notFound = 0) then
            (co, writes, some .NotAllRequestedFound)
          else (co, writes, none)

/-- Models `GetAll` (lines 173-182): `Get` with a nil subset, then mark the
session offline on success. -/
def GetAll (env : Env) (fuel : Nat) (co : ClickOnce) :
    ClickOnce × List (String × List Nat) × Option CoErr :=
  match Get env fuel co [] with
  | (co₁, writes, some e) => (co₁, writes, some e)
  | (co₁, writes, none) => ({co₁ with offline := true}, writes, none)

deriving instance DecidableEq for Except

/-- Directory part of a string URL (up to and including the last '/'); used
only to build concrete resolution functions for witness scenarios. -/
def dirOf (s : String) : String :=
  String.mk ((s.data.reverse.dropWhile (fun c => c ≠ '/')).reverse)

/-- A concrete URL-join for witness scenarios: drop the base's last segment
and append the (slash-normalized) reference. -/
def simpleResolve (b : Url) (ref : String) : Option Url :=
  some ⟨dirOf b.urlString ++ ref, dirOf b.path ++ ref⟩

/-- Association-list lookup after an update. -/
theorem assocFind_assocSet {α : Type} (m : List (String × α)) (k k₁ : String)
    (v : α) :
    assocFind (assocSet m k v) k₁ = if k = k₁ then some v else assocFind m k₁ := by
  induction m with
  | nil => by_cases h : k = k₁ <;> simp [assocSet, assocFind, h]
  | cons hd tl ih =>
    rcases hd with ⟨k₂, v₂⟩
    by_cases h₂ : k₂ = k
    · subst h₂
      by_cases h₁ : k₂ = k₁ <;> simp [assocSet, assocFind, h₁]
    · by_cases h₁ : k₂ = k₁
      · subst h₁
        have hne : ¬ (k = k₂) := fun h => h₂ h.symm
        simp [assocSet, assocFind, h₂, hne]
      · simp [assocSet, assocFind, h₂, h₁, ih]

/-- The traversal pass never reports an error when it has fuel: both entry
loops return the first entry error to `retrieveAllDeployedFiles`, which
discards it (`if err != nil { return nil }`, lines 385-387 and 392-394). -/
theorem retrieveAllDeployedFiles_err_none (env : Env) (fuel : Nat)
    (co : ClickOnce) (assembly : CoAssembly) :
    (retrieveAllDeployedFiles env (fuel + 1) co assembly).2 = none := by
  simp only [retrieveAllDeployedFiles]
  rcases hd : retrieveDeps env fuel co assembly.dependentAssembly with ⟨co₁, e₁⟩
  rcases e₁ with _ | e₁
  · rcases hf : retrieveFiles env fuel co₁ assembly.file with ⟨co₂, e₂⟩
    rcases e₂ with _ | e₂ <;> simp [hf]
  · simp

/-- Hash descriptor used by the concrete scenarios below: an algorithm URI
with fragment "sha1" and digest value "d". -/
def hashSha1U : CoHash := ⟨⟨"u#sha1"⟩, "d"⟩

/-- C1 scenario: a root assembly whose single file entry declares the
unparseable size "x". -/
def asmC1 : CoAssembly := ⟨[⟨⟨"x", hashSha1U⟩, "a.exe"⟩], []⟩

/-- C1 scenario: an initialized session over `asmC1`. -/
def stC1 : ClickOnce :=
  { baseUrl := some ⟨"http://h/x.application", "/x.application"⟩,
    assembly := some asmC1 }

/-- C1 scenario environment (the fetch is never consulted: the entry fails
earlier, at size parsing). -/
def envC1 : Env :=
  ⟨fun _ => none, simpleResolve, fun _ => none, fun _ => [], fun _ => [],
   fun _ => "d"⟩

/-- C1: the claim says every entry-resolution/download error surfaces in the
return value of the calling public operation.  The code stops at the first
failing entry but DISCARDS its error (`return nil` at lines 386 and 393), so
`Get`/`GetAll` report success.  Concretely: the single entry of `asmC1` fails
size parsing (first conjunct), yet `Get` and `GetAll` return a nil error and
nothing is retrieved; in general a fueled traversal pass never returns an
error (last conjunct). -/
theorem C1_entry_error_swallowed :
    (retrieveDeployedFile envC1 8 stC1 "a.exe" ⟨"x", hashSha1U⟩
        .NonAssemblyFile).2 = some (.AtoiError "x") ∧
    (Get envC1 9 stC1 []).2.2 = none ∧
    (Get envC1 9 stC1 []).1.deployedFiles = [] ∧
    (GetAll envC1 9 stC1).2.2 = none ∧
    (∀ env fuel co assembly,
      (retrieveAllDeployedFiles env (fuel + 1) co assembly).2 = none) := by
  refine ⟨by decide, by decide, by decide, by decide, ?_⟩
  intro env fuel co assembly
  exact retrieveAllDeployedFiles_err_none env fuel co assembly

/-- C5 counterexample: the declared size "-1" does not encode a non-negative
integer, yet `strconv.Atoi` parses it and `remoteFileInfo` succeeds, with a
negative size in the resulting `RemoteFile`. -/
theorem C5_negative_size_accepted :
    atoi "-1" = some (-1) ∧
    remoteFileInfo ⟨"u", "u"⟩ ⟨"-1", hashSha1U⟩ =
      .ok ⟨⟨"u", "u"⟩, -1, "d", "sha1"⟩ := by decide

/-- C5 amended: resolving an entry fails with the size-parse (decode) error
exactly when `strconv.Atoi` rejects the declared size string — an optionally
SIGNED integer within the 64-bit range is accepted, so negative sizes parse;
when the size parses (and the algorithm URI parses), resolution succeeds and
carries the parsed value. -/
theorem C5_amended_size_parse (u : Url) (deployedFile : CoBase) :
    (remoteFileInfo u deployedFile = .error (.AtoiError deployedFile.size) ↔
      atoi deployedFile.size = none) ∧
    (∀ n frag, atoi deployedFile.size = some n →
      urlFragment deployedFile.hash.digestMethod.algorithm = some frag →
      remoteFileInfo u deployedFile =
        .ok ⟨u, n, deployedFile.hash.digestValue, toLowerStr frag⟩) := by
  constructor
  · rcases ha : atoi deployedFile.size with _ | n
    · simp [remoteFileInfo, ha]
    · simp only [remoteFileInfo, ha]
      rcases hu : urlFragment deployedFile.hash.digestMethod.algorithm with _ | frag
      · simp
      · simp
  · intro n frag ha hu
    simp [remoteFileInfo, ha, hu]

/-- C3 scenario remote file: "a.exe", declared size 1, declared digest "d",
algorithm sha1. -/
def rfC3 : RemoteFile := ⟨⟨"http://h/a.exe", "/a.exe"⟩, 1, "d", "sha1"⟩

/-- C3 scenario environment: the suffixed URL answers 404 with a 2-byte error
page, the plain URL serves the correct 1-byte file [7], whose sha1/base64
digest is "d". -/
def envC3 : Env :=
  ⟨fun u =>
     if u = "http://h/a.exe.deploy" then some (404, [9, 9])
     else if u = "http://h/a.exe" then some (200, [7])
     else none,
   simpleResolve, fun _ => none,
   fun b => if b = [7] then [1] else [0], fun _ => [],
   fun b => if b = [1] then "d" else "?"⟩

/-- C3 scenario entry and session for the session-level conjuncts. -/
def baseC3 : CoBase := ⟨"1", hashSha1U⟩

/-- C3 scenario session: initialized, suffix heuristic still active. -/
def stC3 : ClickOnce :=
  { baseUrl := some ⟨"http://h/x.application", "/x.application"⟩,
    assembly := some ⟨[⟨baseC3, "a.exe"⟩], []⟩ }

/-- C3: the claim says a successful fallback returns the file and permanently
sets the session's no-suffix flag.  In the code the fallback response at line
500 is bound to a `res` that SHADOWS the outer one, so the verification at
lines 513-544 runs on the original 404 response's body: with the suffixed URL
404ing (2-byte error page) and the plain URL serving the correct verified
byte [7], the download fails with a size mismatch of the 404 page (first
conjunct) even though the fallback body would verify (second conjunct); at
session level the entry error prevents `co.noSuffix` from ever being set
(last conjuncts). -/
theorem C3_fallback_body_shadowed :
    downloadAndCheck envC3 rfC3 true = (.error (.SizeMismatch "a.exe" 1 2), false) ∧
    (checkBody envC3 rfC3 [7] false).1 = .ok [7] ∧
    envC3.fetch "http://h/a.exe.deploy" = some (404, [9, 9]) ∧
    envC3.fetch "http://h/a.exe" = some (200, [7]) ∧
    (retrieveDeployedFile envC3 8 stC3 "a.exe" baseC3 .NonAssemblyFile).2 =
      some (.SizeMismatch "a.exe" 1 2) ∧
    ((retrieveDeployedFile envC3 8 stC3 "a.exe" baseC3 .NonAssemblyFile).1).noSuffix
      = false := by decide

/-- C4 scenario assembly: one install-tagged dependent sub-manifest and one
requested file. -/
def asmC4 : CoAssembly :=
  ⟨[⟨⟨"1", hashSha1U⟩, "a.exe"⟩], [⟨⟨"3", hashSha1U⟩, "sub.manifest", "install", ""⟩]⟩

/-- C4 scenario session with an output directory configured. -/
def stC4 : ClickOnce :=
  { baseUrl := some ⟨"http://h/app/x.application", "/app/x.application"⟩,
    assembly := some asmC4, outputDir := "out" }

/-- C4 scenario environment: the sub-manifest decodes to an empty assembly;
both bodies verify (every sha1 digest encodes to "d"). -/
def envC4 : Env :=
  ⟨fun u =>
     if u = "http://h/app/sub.manifest" then some (200, [1, 2, 3])
     else if u = "http://h/app/a.exe.deploy" then some (200, [7])
     else none,
   simpleResolve,
   fun c => if c = [1, 2, 3] then some ⟨[], []⟩ else none,
   fun _ => [], fun _ => [], fun _ => "d"⟩

/-- C4 counterexample: `Get(["a.exe"])` on a manifest that reaches "a.exe"
through the install sub-manifest "sub.manifest" persists the traversed
manifest to the output directory too — the write list contains
"out/sub.manifest" — contradicting "manifests traversed this way are never
persisted to the configured output directory" and "only entries whose bare
filename is in the requested subset are written to disk". -/
theorem C4_manifest_persisted :
    (Get envC4 20 stC4 ["a.exe"]).2.1 =
      [("out/sub.manifest", [1, 2, 3]), ("out/a.exe", [7])] ∧
    (Get envC4 20 stC4 ["a.exe"]).2.2 = none ∧
    isManifest "sub.manifest" = true := by decide

/-- C4 amended: with a subset filter active, (i) a successfully downloaded
install-manifest entry (empty sub-assembly) inserts its own bare filename
into the subset map, marked found; (ii) manifest entries are never skipped by
the subset filter (here observed by an entry whose name is absent from the
filter still reaching URL resolution); (iii) the persistence filter admits
exactly the bare filenames present in the subset map — so traversed manifests
are persisted alongside the requested files, and only non-manifest entries
absent from the map are excluded. -/
theorem C4_amended_subset_marking (env : Env) (fuel : Nat) (co : ClickOnce)
    (path : String) (base : CoBase) (ty : CoType)
    (m : List (String × Bool)) (b u : Url) (rf : RemoteFile)
    (content : List Nat) (sfx : Bool)
    (hsub : co.subset = some m)
    (hman : isManifest (pathBase (replaceBackslash path)) = true)
    (hne : ¬ path = "")
    (hdf : assocFind co.deployedFiles path = none)
    (hb : co.baseUrl = some b)
    (hres : env.resolve b (replaceBackslash path) = some u)
    (hrf : remoteFileInfo u base = .ok rf)
    (hdl : downloadAndCheck env rf (!co.noSuffix) = (.ok content, sfx))
    (hdec : env.decode content = some ⟨[], []⟩) :
    ((retrieveDeployedFile env (fuel + 4) co path base ty).1).subset =
      some (assocSet m (pathBase (replaceBackslash path)) true) ∧
    (∀ env₁ fuel₁ (co₁ : ClickOnce) path₁ base₁ ty₁ m₁ (b₁ : Url),
      co₁.subset = some m₁ →
      isManifest (pathBase (replaceBackslash path₁)) = true →
      ¬ path₁ = "" →
      assocFind co₁.deployedFiles path₁ = none →
      co₁.baseUrl = some b₁ →
      env₁.resolve b₁ (replaceBackslash path₁) = none →
      retrieveDeployedFile env₁ (fuel₁ + 1) co₁ path₁ base₁ ty₁ =
        (co₁, some (.UrlError (replaceBackslash path₁)))) ∧
    (∀ (co₂ : ClickOnce) path₂ content₂ m₂, co₂.subset = some m₂ →
      ((saveDeployedFile co₂ path₂ content₂).isSome ↔
        (assocFind m₂ (pathBase (replaceBackslash path₂))).isSome)) := by
  refine ⟨?_, ?_, ?_⟩
  · by_cases hty : ty = CoType.AssemblyDependency <;>
      simp [retrieveDeployedFile, hne, hsub, hman, hdf, hb, hres, hty, hrf, hdl,
            hdec, subApplication, retrieveAllDeployedFiles, retrieveDeps,
            retrieveFiles]
  · intro env₁ fuel₁ co₁ path₁ base₁ ty₁ m₁ b₁ hsub₁ hman₁ hne₁ hdf₁ hb₁ hres₁
    simp [retrieveDeployedFile, hne₁, hsub₁, hman₁, hdf₁, hb₁, hres₁]
  · intro co₂ path₂ content₂ m₂ hsub₂
    rcases hf : assocFind m₂ (pathBase (replaceBackslash path₂)) with _ | v <;>
      simp [saveDeployedFile, hsub₂, hf]

/-- C4 witness session: subset filter {"a.exe"} installed, nothing downloaded
yet. -/
def stC4w : ClickOnce :=
  { baseUrl := some ⟨"http://h/app/x.application", "/app/x.application"⟩,
    assembly := some asmC4, outputDir := "out",
    subset := some [("a.exe", false)] }

/-- Witness for C4: retrieving the install sub-manifest of the concrete
scenario inserts "sub.manifest" into the subset map, marked true. -/
theorem C4_amended_subset_marking_witness :
    ((retrieveDeployedFile envC4 9 stC4w "sub.manifest" ⟨"3", hashSha1U⟩
        .AssemblyDependency).1).subset =
      some [("a.exe", false), ("sub.manifest", true)] := by
  have h := C4_amended_subset_marking envC4 5 stC4w "sub.manifest"
    ⟨"3", hashSha1U⟩ .AssemblyDependency [("a.exe", false)]
    ⟨"http://h/app/x.application", "/app/x.application"⟩
    ⟨"http://h/app/sub.manifest", "/app/sub.manifest"⟩
    ⟨⟨"http://h/app/sub.manifest", "/app/sub.manifest"⟩, 3, "d", "sha1"⟩
    [1, 2, 3] true (by decide) (by decide) (by decide) (by decide) (by decide)
    (by decide) (by decide) (by decide) (by decide)
  exact h.1.trans (by decide)

/-- C9: an entry whose path is already a key of the result mapping is a
no-op — the state is returned unchanged (no overwrite of the existing entry,
no change to any session field), with a nil error, for every environment
(in particular no fetch happens). -/
theorem C9_duplicate_path_noop (env : Env) (fuel : Nat) (co : ClickOnce)
    (path : String) (base : CoBase) (ty : CoType)
    (hdup : (assocFind co.deployedFiles path).isSome = true) :
    retrieveDeployedFile env (fuel + 1) co path base ty = (co, none) := by
  simp only [retrieveDeployedFile]
  split
  · rfl
  · split
    · rfl
    · simp [hdup]

/-- C9 witness session: "a.exe" already downloaded. -/
def stC9 : ClickOnce :=
  { deployedFiles := [("a.exe", ⟨.NonAssemblyFile, [7]⟩)],
    baseUrl := some ⟨"http://h/x.application", "/x.application"⟩,
    assembly := some ⟨[], []⟩ }

/-- Witness for C9 at a concrete duplicate entry. -/
theorem C9_duplicate_path_noop_witness :
    retrieveDeployedFile envC1 6 stC9 "a.exe" ⟨"1", hashSha1U⟩
      .NonAssemblyFile = (stC9, none) :=
  C9_duplicate_path_noop envC1 5 stC9 "a.exe" ⟨"1", hashSha1U⟩
    .NonAssemblyFile (by decide)

/-- A non-manifest entry whose bare filename is not a key of the active
subset map is skipped: the state comes back unchanged with a nil error,
whatever the environment. -/
theorem retrieveDeployedFile_skip (env : Env) (fuel : Nat) (co : ClickOnce)
    (path : String) (base : CoBase) (ty : CoType) (m : List (String × Bool))
    (hsub : co.subset = some m)
    (hman : isManifest (pathBase (replaceBackslash path)) = false)
    (hnf : assocFind m (pathBase (replaceBackslash path)) = none) :
    retrieveDeployedFile env (fuel + 1) co path base ty = (co, none) := by
  by_cases hp : path = "" <;>
    simp [retrieveDeployedFile, hp, hsub, hman, hnf]

/-- A file list every element of which the subset filter skips leaves the
state unchanged (no error), given enough fuel. -/
theorem retrieveFiles_skip_all (env : Env) (co : ClickOnce)
    (m : List (String × Bool)) (hsub : co.subset = some m)
    (files : List CoFile) :
    ∀ fuel, files.length < fuel →
    (∀ f ∈ files, isManifest (pathBase (replaceBackslash f.name)) = false ∧
      assocFind m (pathBase (replaceBackslash f.name)) = none) →
    retrieveFiles env fuel co files = (co, none) := by
  induction files with
  | nil =>
    intro fuel hlen _
    rcases fuel with _ | n
    · omega
    · simp [retrieveFiles]
  | cons f rest ih =>
    intro fuel hlen hall
    rcases fuel with _ | n
    · omega
    · rcases n with _ | n₁
      · simp at hlen
      · have hf := hall f (List.mem_cons_self f rest)
        have hskip := retrieveDeployedFile_skip env n₁ co f.name f.base
          .NonAssemblyFile m hsub hf.1 hf.2
        have hrest : retrieveFiles env (n₁ + 1) co rest = (co, none) := by
          refine ih (n₁ + 1) ?_ ?_
          · simp at hlen; omega
          · intro g hg; exact hall g (List.mem_cons_of_mem f hg)
        show (match retrieveDeployedFile env (n₁ + 1) co f.name f.base
            CoType.NonAssemblyFile with
          | (co₁, some e) => (co₁, some e)
          | (co₁, none) => retrieveFiles env (n₁ + 1) co₁ rest) = (co, none)
        rw [hskip]
        exact hrest

/-- C10: a subset filter installed by an earlier `Get` is never cleared: a
later `Get` with an empty subset runs the traversal with the stale filter
still in place — under it every non-manifest file whose bare name is absent
from the old map is skipped, nothing new is downloaded, and the save step
still filters by the old map (first conjunct); in general such entries are
skipped by traversal (second conjunct) and excluded from persistence (third
conjunct). -/
theorem C10_stale_subset_filter (env : Env) (fuel : Nat) (co : ClickOnce)
    (m : List (String × Bool)) (assembly : CoAssembly) (b : Url)
    (hsub : co.subset = some m)
    (hasm : co.assembly = some assembly)
    (hb : co.baseUrl = some b)
    (hoff : co.offline = false)
    (hdeps : assembly.dependentAssembly = [])
    (hfiles : ∀ f ∈ assembly.file,
      isManifest (pathBase (replaceBackslash f.name)) = false ∧
      assocFind m (pathBase (replaceBackslash f.name)) = none)
    (hfuel : assembly.file.length + 1 < fuel) :
    Get env fuel co [] =
      ({co with notFound := 0},
       (if ¬ (co.outputDir = "") then
          saveAllDeployedFiles {co with notFound := 0} else []),
       none) ∧
    (∀ env₁ fuel₁ (co₁ : ClickOnce) path₁ base₁ ty₁ m₁, co₁.subset = some m₁ →
      isManifest (pathBase (replaceBackslash path₁)) = false →
      assocFind m₁ (pathBase (replaceBackslash path₁)) = none →
      retrieveDeployedFile env₁ (fuel₁ + 1) co₁ path₁ base₁ ty₁ = (co₁, none)) ∧
    (∀ (co₂ : ClickOnce) path₂ content₂ m₂, co₂.subset = some m₂ →
      assocFind m₂ (pathBase (replaceBackslash path₂)) = none →
      saveDeployedFile co₂ path₂ content₂ = none) := by
  refine ⟨?_, ?_, ?_⟩
  · rcases fuel with _ | F
    · omega
    · rcases F with _ | g
      · simp at hfuel
      · have hdep0 : retrieveDeps env (g + 1) co assembly.dependentAssembly
            = (co, none) := by
          rw [hdeps]; simp [retrieveDeps]
        have hfil : retrieveFiles env (g + 1) co assembly.file = (co, none) :=
          retrieveFiles_skip_all env co m hsub assembly.file (g + 1)
            (by simp at hfuel; omega) hfiles
        have hall : retrieveAllDeployedFiles env (g + 1 + 1) co assembly
            = (co, none) := by
          show (match retrieveDeps env (g + 1) co assembly.dependentAssembly with
            | (co₁, some _) => (co₁, none)
            | (co₁, none) =>
              match retrieveFiles env (g + 1) co₁ assembly.file with
              | (co₂, some _) => (co₂, none)
              | (co₂, none) => (co₂, none)) = (co, none)
          rw [hdep0]
          show (match retrieveFiles env (g + 1) co assembly.file with
            | (co₂, some _) => (co₂, none)
            | (co₂, none) => (co₂, none)) = (co, none)
          rw [hfil]
        simp [Get, hb, hasm, hoff, hall]
  · intro env₁ fuel₁ co₁ path₁ base₁ ty₁ m₁ h₁ h₂ h₃
    exact retrieveDeployedFile_skip env₁ fuel₁ co₁ path₁ base₁ ty₁ m₁ h₁ h₂ h₃
  · intro co₂ path₂ content₂ m₂ h₁ h₂
    simp [saveDeployedFile, h₁, h₂]

/-- C10 witness assembly: one plain file "b.dll", not in the stale subset. -/
def asmC10 : CoAssembly := ⟨[⟨⟨"1", hashSha1U⟩, "b.dll"⟩], []⟩

/-- C10 witness session: stale filter {"a.exe"} left by an earlier Get,
"a.exe" already downloaded, output directory configured. -/
def stC10 : ClickOnce :=
  { deployedFiles := [("a.exe", ⟨.NonAssemblyFile, [7]⟩)],
    subset := some [("a.exe", true)],
    baseUrl := some ⟨"http://h/x.application", "/x.application"⟩,
    assembly := some asmC10, outputDir := "o" }

/-- Witness for C10: `Get(nil)` after a subset `Get` skips "b.dll" (stale
filter), downloads nothing, and persists only the old subset files. -/
theorem C10_stale_subset_filter_witness :
    Get envC1 9 stC10 [] = ({stC10 with notFound := 0}, [("o/a.exe", [7])], none) :=
  (C10_stale_subset_filter envC1 9 stC10 [("a.exe", true)] asmC10
    ⟨"http://h/x.application", "/x.application"⟩ (by decide) (by decide)
    (by decide) (by decide) (by decide) (by decide) (by decide)).1.trans
    (by decide)

/-- C2: for a supported algorithm and a primary fetch that answers with a
non-404 status and body, `downloadAndCheck` returns the body exactly when the
body's length equals the declared size AND the base64 of its sha1/sha256 hash
equals the declared digest; a length mismatch yields the size-mismatch error,
a passing length with a failing digest yields the digest-mismatch error, and
whenever verification fails `retrieveDeployedFile` leaves the result mapping
unchanged (the entry is not added). -/
theorem C2_download_verification (env : Env) (file : RemoteFile)
    (suffix : Bool) (status : Nat) (body : List Nat)
    (halg : file.algorithm = "sha1" ∨ file.algorithm = "sha256")
    (hfetch : env.fetch (if suffix ∧ isManifest (pathBase file.url.path) = false
        then file.url.urlString ++ deployedFileExtension
        else file.url.urlString) = some (status, body))
    (hstatus : ¬ status = 404) :
    ((downloadAndCheck env file suffix).1 = .ok body ↔
      (file.size = (body.length : Int) ∧
        file.digest = env.base64 (if file.algorithm = "sha1"
          then env.sha1 body else env.sha256 body))) ∧
    (¬ file.size = (body.length : Int) →
      downloadAndCheck env file suffix =
        (.error (.SizeMismatch (pathBase file.url.path) file.size body.length),
         suffix)) ∧
    (file.size = (body.length : Int) →
      ¬ file.digest = env.base64 (if file.algorithm = "sha1"
          then env.sha1 body else env.sha256 body) →
      downloadAndCheck env file suffix =
        (.error (.DigestMismatch (pathBase file.url.path)), suffix)) ∧
    (∀ fuel (co : ClickOnce) path base ty (b u : Url),
      ¬ (file.size = (body.length : Int) ∧
        file.digest = env.base64 (if file.algorithm = "sha1"
          then env.sha1 body else env.sha256 body)) →
      co.baseUrl = some b →
      env.resolve b (replaceBackslash path) = some u →
      remoteFileInfo u base = .ok file →
      (!co.noSuffix) = suffix →
      ((retrieveDeployedFile env fuel co path base ty).1).deployedFiles
        = co.deployedFiles) := by
  have hguard : ¬ (¬ (file.algorithm = "sha1") ∧ ¬ (file.algorithm = "sha256")) := by
    rcases halg with h | h <;> simp [h]
  have hdl : downloadAndCheck env file suffix = checkBody env file body suffix := by
    simp only [downloadAndCheck, hfetch]
    simp [hguard, hstatus]
  have herr : ∀ e, downloadAndCheck env file suffix = (.error e, suffix) →
      ∀ fuel (co : ClickOnce) path base ty (b u : Url),
      co.baseUrl = some b →
      env.resolve b (replaceBackslash path) = some u →
      remoteFileInfo u base = .ok file →
      (!co.noSuffix) = suffix →
      ((retrieveDeployedFile env fuel co path base ty).1).deployedFiles
        = co.deployedFiles := by
    intro e hdc fuel co path base ty b u hb hres hrf hsuf
    rcases fuel with _ | n
    · simp [retrieveDeployedFile]
    · by_cases hp : path = ""
      · simp [retrieveDeployedFile, hp]
      · by_cases hflt : (match co.subset with
            | some m => !isManifest (pathBase (replaceBackslash path)) &&
                (assocFind m (pathBase (replaceBackslash path))).isNone
            | none => false) = true
        · simp [retrieveDeployedFile, hp, hflt]
        · by_cases hdup : (assocFind co.deployedFiles path).isSome = true
          · simp [retrieveDeployedFile, hp, hflt, hdup]
          · rcases hsub₀ : co.subset with _ | m₀ <;>
              by_cases hman : isManifest (pathBase (replaceBackslash path)) = true <;>
              by_cases hty : ty = CoType.AssemblyDependency <;>
              simp [retrieveDeployedFile, hp, hflt, hdup, hb, hres, hrf, hsuf,
                hdc, hty, hman, hsub₀] <;>
              (try (split <;> rfl))
  refine ⟨?_, ?_, ?_, ?_⟩
  · rw [hdl]
    by_cases hsz : file.size = (body.length : Int)
    · by_cases hdg : file.digest = env.base64 (if file.algorithm = "sha1"
          then env.sha1 body else env.sha256 body) <;>
        simp [checkBody, hsz, hdg]
    · simp [checkBody, hsz]
  · intro hsz
    rw [hdl]
    simp [checkBody, hsz]
  · intro hsz hdg
    rw [hdl]
    simp [checkBody, hsz, hdg]
  · intro fuel co path base ty b u hbad hb hres hrf hsuf
    by_cases hsz : file.size = (body.length : Int)
    · have hdg : ¬ file.digest = env.base64 (if file.algorithm = "sha1"
          then env.sha1 body else env.sha256 body) := fun h => hbad ⟨hsz, h⟩
      have hdc : downloadAndCheck env file suffix =
          (.error (.DigestMismatch (pathBase file.url.path)), suffix) := by
        rw [hdl]; simp [checkBody, hsz, hdg]
      exact herr _ hdc fuel co path base ty b u hb hres hrf hsuf
    · have hdc : downloadAndCheck env file suffix =
          (.error (.SizeMismatch (pathBase file.url.path) file.size body.length),
           suffix) := by
        rw [hdl]; simp [checkBody, hsz]
      exact herr _ hdc fuel co path base ty b u hb hres hrf hsuf

/-- C2 witness environment: "f.bin" of size 2, sha1/base64 digest "dg". -/
def envC2 : Env :=
  ⟨fun u => if u = "http://h/f.bin.deploy" then some (200, [7, 8]) else none,
   simpleResolve, fun _ => none,
   fun b => if b = [7, 8] then [1] else [0], fun _ => [],
   fun b => if b = [1] then "dg" else "?"⟩

/-- C2 witness remote file. -/
def rfC2 : RemoteFile := ⟨⟨"http://h/f.bin", "/f.bin"⟩, 2, "dg", "sha1"⟩

/-- Witness for C2: at the concrete scenario the verification succeeds and
returns the fetched body. -/
theorem C2_download_verification_witness :
    (downloadAndCheck envC2 rfC2 true).1 = .ok [7, 8] :=
  (C2_download_verification envC2 rfC2 true 200 [7, 8] (Or.inl rfl) (by decide)
    (by decide)).1.mpr (by decide)

/-- C6 scenario assembly: an install-tagged sub-manifest in a subdirectory,
followed by a sibling file. -/
def asmC6 : CoAssembly :=
  ⟨[⟨⟨"1", hashSha1U⟩, "a.exe"⟩],
   [⟨⟨"3", hashSha1U⟩, "sub/s.manifest", "install", ""⟩]⟩

/-- C6 scenario session. -/
def stC6 : ClickOnce :=
  { baseUrl := some ⟨"http://h/app/x.application", "/app/x.application"⟩,
    assembly := some asmC6 }

/-- C6 scenario environment: bodies exist ONLY under the sub-manifest's
directory, so the sibling "a.exe" downloads successfully exactly because it
is resolved against the rebased base. -/
def envC6 : Env :=
  ⟨fun u =>
     if u = "http://h/app/sub/s.manifest" then some (200, [1, 2, 3])
     else if u = "http://h/app/sub/a.exe.deploy" then some (200, [7])
     else none,
   simpleResolve,
   fun c => if c = [1, 2, 3] then some ⟨[], []⟩ else none,
   fun _ => [], fun _ => [], fun _ => "d"⟩

/-- C6: when an install-tagged dependent assembly is itself a manifest, the
session base URL is set to its resolved URL BEFORE the download (it is
already rebased in the state returned on a download failure — first
conjunct); a non-manifest entry never changes the base URL (second
conjunct); on a successful nested-manifest download the returned state keeps
the rebased base (third conjunct); and concretely, the sibling file after a
nested manifest is fetched from the nested manifest's directory, the rebase
persisting to the end of the pass (last conjuncts). -/
theorem C6_base_url_rebase (env : Env) (fuel : Nat) (co : ClickOnce)
    (path : String) (base : CoBase) (b u : Url) (rf : RemoteFile) (e : CoErr)
    (sfx : Bool)
    (hman : isManifest (pathBase (replaceBackslash path)) = true)
    (hp : ¬ path = "")
    (hdup : (assocFind co.deployedFiles path).isSome = false)
    (hb : co.baseUrl = some b)
    (hres : env.resolve b (replaceBackslash path) = some u)
    (hrf : remoteFileInfo u base = .ok rf)
    (hdc : downloadAndCheck env rf (!co.noSuffix) = (.error e, sfx)) :
    retrieveDeployedFile env (fuel + 1) co path base .AssemblyDependency =
      ({co with baseUrl := some u}, some e) ∧
    (∀ env₁ fuel₁ (co₁ : ClickOnce) path₁ base₁ ty₁,
      isManifest (pathBase (replaceBackslash path₁)) = false →
      ((retrieveDeployedFile env₁ fuel₁ co₁ path₁ base₁ ty₁).1).baseUrl
        = co₁.baseUrl) ∧
    (∀ env₂ fuel₂ (co₂ : ClickOnce) path₂ base₂ (b₂ u₂ : Url) rf₂ content₂ sfx₂,
      isManifest (pathBase (replaceBackslash path₂)) = true →
      ¬ path₂ = "" →
      (assocFind co₂.deployedFiles path₂).isSome = false →
      co₂.baseUrl = some b₂ →
      env₂.resolve b₂ (replaceBackslash path₂) = some u₂ →
      remoteFileInfo u₂ base₂ = .ok rf₂ →
      downloadAndCheck env₂ rf₂ (!co₂.noSuffix) = (.ok content₂, sfx₂) →
      env₂.decode content₂ = some ⟨[], []⟩ →
      ((retrieveDeployedFile env₂ (fuel₂ + 4) co₂ path₂ base₂
          .AssemblyDependency).1).baseUrl = some u₂) ∧
    (Get envC6 9 stC6 []).1.deployedFiles =
      [("sub/s.manifest", ⟨.AssemblyDependency, [1, 2, 3]⟩),
       ("a.exe", ⟨.NonAssemblyFile, [7]⟩)] ∧
    (Get envC6 9 stC6 []).1.baseUrl =
      some ⟨"http://h/app/sub/s.manifest", "/app/sub/s.manifest"⟩ := by
  refine ⟨?_, ?_, ?_, by decide, by decide⟩
  · rcases hsub₀ : co.subset with _ | m₀ <;>
      simp [retrieveDeployedFile, hp, hman, hdup, hb, hres, hrf, hdc, hsub₀]
  · intro env₁ fuel₁ co₁ path₁ base₁ ty₁ hman₁
    rcases fuel₁ with _ | n
    · simp [retrieveDeployedFile]
    · by_cases hp₁ : path₁ = ""
      · simp [retrieveDeployedFile, hp₁]
      · by_cases hflt₁ : (match co₁.subset with
            | some m => !isManifest (pathBase (replaceBackslash path₁)) &&
                (assocFind m (pathBase (replaceBackslash path₁))).isNone
            | none => false) = true
        · simp [retrieveDeployedFile, hp₁, hflt₁]
        · by_cases hdup₁ : (assocFind co₁.deployedFiles path₁).isSome = true
          · simp [retrieveDeployedFile, hp₁, hflt₁, hdup₁]
          · rcases hb₁ : co₁.baseUrl with _ | b₁
            · simp [retrieveDeployedFile, hp₁, hflt₁, hdup₁, hb₁]
            · rcases hres₁ : env₁.resolve b₁ (replaceBackslash path₁) with _ | u₁
              · simp [retrieveDeployedFile, hp₁, hflt₁, hdup₁, hb₁, hres₁]
              · rcases hrf₁ : remoteFileInfo u₁ base₁ with e₁ | rf₁
                · simp [retrieveDeployedFile, hp₁, hflt₁, hdup₁, hb₁, hres₁,
                    hrf₁, hman₁] <;>
                  (try (split <;> simp [hb₁]))
                · rcases hdc₁ : downloadAndCheck env₁ rf₁ (!co₁.noSuffix)
                    with ⟨r₁, s₁⟩
                  rcases r₁ with e₁ | content₁ <;>
                    simp [retrieveDeployedFile, hp₁, hflt₁, hdup₁, hb₁, hres₁,
                      hrf₁, hdc₁, hman₁] <;>
                    (try (split <;> simp [hb₁])) <;>
                    (try (rcases hsubA : co₁.subset with _ | mA <;> simp [hsubA]))
  · intro env₂ fuel₂ co₂ path₂ base₂ b₂ u₂ rf₂ content₂ sfx₂ hman₂ hp₂ hdup₂
      hb₂ hres₂ hrf₂ hdc₂ hdec₂
    rcases hsub₂ : co₂.subset with _ | m₂ <;>
      simp [retrieveDeployedFile, hp₂, hman₂, hdup₂, hb₂, hres₂, hrf₂, hdc₂,
        hsub₂, hdec₂, subApplication, retrieveAllDeployedFiles, retrieveDeps,
        retrieveFiles]

/-- Witness for C6: retrieving the concrete install sub-manifest with an
unsupported digest algorithm returns the error, but the state already has the
base URL rebased to the sub-manifest's resolved URL. -/
theorem C6_base_url_rebase_witness :
    retrieveDeployedFile envC6 6 stC6 "sub/s.manifest" ⟨"3", ⟨⟨"u#md5"⟩, "d"⟩⟩
      .AssemblyDependency =
      ({stC6 with
          baseUrl := some ⟨"http://h/app/sub/s.manifest", "/app/sub/s.manifest"⟩},
       some (.AlgorithmNotSupported "md5" "s.manifest")) :=
  (C6_base_url_rebase envC6 5 stC6 "sub/s.manifest" ⟨"3", ⟨⟨"u#md5"⟩, "d"⟩⟩
    ⟨"http://h/app/x.application", "/app/x.application"⟩
    ⟨"http://h/app/sub/s.manifest", "/app/sub/s.manifest"⟩
    ⟨⟨"http://h/app/sub/s.manifest", "/app/sub/s.manifest"⟩, 3, "d", "md5"⟩
    (.AlgorithmNotSupported "md5" "s.manifest") true (by decide) (by decide)
    (by decide) (by decide) (by decide) (by decide) (by decide)).1

/-- The initSubset loop reports no error when no requested name is empty. -/
theorem initSubsetLoop_err_none (l : List String) :
    ∀ m, (∀ s ∈ l, ¬ s = "") → (initSubsetLoop m l).2 = none := by
  induction l with
  | nil => intro m _; simp [initSubsetLoop]
  | cons a l ih =>
    intro m hne
    have ha : ¬ a = "" := hne a (List.mem_cons_self a l)
    simp only [initSubsetLoop, ha, if_false]
    exact ih (assocSet m a false) (fun s hs => hne s (List.mem_cons_of_mem a hs))

/-- Lookup in the map built by the initSubset loop: every requested name maps
to false, other names fall through to the initial map. -/
theorem initSubsetLoop_find (l : List String) :
    ∀ m s, (∀ x ∈ l, ¬ x = "") →
    assocFind (initSubsetLoop m l).1 s =
      if s ∈ l then some false else assocFind m s := by
  induction l with
  | nil => intro m s _; simp [initSubsetLoop]
  | cons a l ih =>
    intro m s hne
    have ha : ¬ a = "" := hne a (List.mem_cons_self a l)
    simp only [initSubsetLoop, ha, if_false]
    rw [ih (assocSet m a false) s (fun x hx => hne x (List.mem_cons_of_mem a hx))]
    by_cases hsl : s ∈ l
    · simp [hsl]
    · by_cases has : a = s
      · subst has
        simp [hsl, assocFind_assocSet]
      · have hmem : ¬ s ∈ a :: l := by
          intro h
          rcases List.mem_cons.mp h with h₁ | h₂
          · exact has h₁.symm
          · exact hsl h₂
        simp [hsl, hmem, assocFind_assocSet, has]

/-- Lookup after the checkDownload marking fold: a key of the initial map is
flipped to true exactly when some downloaded path has it as bare filename;
keys absent from the initial map stay absent. -/
theorem checkDownload_fold_find (ps : List (String × DeployedFile)) :
    ∀ (m : List (String × Bool)) (s : String),
    assocFind (ps.foldl
      (fun m₁ e =>
        if (assocFind m₁ (pathBase (replaceBackslash e.1))).isSome then
          assocSet m₁ (pathBase (replaceBackslash e.1)) true
        else m₁) m) s =
      match assocFind m s with
      | none => none
      | some v =>
        some (v || ps.any (fun e => pathBase (replaceBackslash e.1) = s)) := by
  induction ps with
  | nil => intro m s; rcases h : assocFind m s with _ | v <;> simp [h]
  | cons e rest ih =>
    intro m s
    simp only [List.foldl_cons]
    rw [ih]
    by_cases hname : pathBase (replaceBackslash e.1) = s
    · rw [hname]
      rcases hf : assocFind m s with _ | v
      · simp [hf]
      · simp [hf, assocFind_assocSet, hname]
    · rcases hfn : assocFind m (pathBase (replaceBackslash e.1)) with _ | v₀
      · rcases hf : assocFind m s with _ | v <;> simp [hfn, hf, hname]
      · rcases hf : assocFind m s with _ | v <;>
          simp [hfn, hf, hname, assocFind_assocSet]

/-- C7: (1) once a session is offline, `Get` never consults the environment
(zero network fetches: the result is the same under every environment);
(2) an offline `Get` leaves the result mapping unchanged; (3) an offline
`Get` with a valid subset succeeds exactly when every requested bare filename
matches some already-retrieved path — the subset question is answered purely
from the accumulated mapping; (4) a successful `GetAll` marks the session
offline. -/
theorem C7_offline_reuse (env : Env) (fuel : Nat) (co : ClickOnce)
    (subset : List String)
    (hoff : co.offline = true)
    (hvalid : ¬ subset = [])
    (hne : ∀ s ∈ subset, ¬ s = "")
    (hb : co.baseUrl.isSome = true)
    (ha : co.assembly.isSome = true) :
    (∀ envA envB fuelA (coA : ClickOnce) subsetA, coA.offline = true →
      Get envA fuelA coA subsetA = Get envB fuelA coA subsetA) ∧
    (Get env fuel co subset).1.deployedFiles = co.deployedFiles ∧
    ((Get env fuel co subset).2.2 = none ↔
      ∀ s ∈ subset, ∃ e ∈ co.deployedFiles,
        pathBase (replaceBackslash e.1) = s) ∧
    (∀ envA fuelA (coA : ClickOnce),
      (GetAll envA fuelA coA).2.2 = none →
      (GetAll envA fuelA coA).1.offline = true) := by
  have hbn : co.baseUrl.isNone = false := by
    rcases h : co.baseUrl with _ | b
    · rw [h] at hb; simp at hb
    · simp
  have han : co.assembly.isNone = false := by
    rcases h : co.assembly with _ | a
    · rw [h] at ha; simp at ha
    · simp
  have hval : subset.isEmpty = false := by
    rcases subset with _ | ⟨s, l⟩
    · exact absurd rfl hvalid
    · simp
  have hguard : ¬ (co.baseUrl.isNone = true ∨ co.assembly.isNone = true) := by
    simp [hbn, han]
  obtain ⟨m₀, hm₀, hm₀find⟩ : ∃ m, initSubsetLoop [] subset = (m, none) ∧
      ∀ s, assocFind m s = if s ∈ subset then some false else none := by
    have h := initSubsetLoop_err_none subset [] hne
    have hf := fun s => initSubsetLoop_find subset [] s hne
    rcases hl : initSubsetLoop [] subset with ⟨m, e⟩
    rw [hl] at h hf
    simp only at h hf
    subst h
    exact ⟨m, rfl, fun s => by rw [hf s]; simp [assocFind]⟩
  refine ⟨?_, ?_, ?_, ?_⟩
  · intro envA envB fuelA coA subsetA hoffA
    have hA : ((if (!subsetA.isEmpty) = true
        then initSubset coA subsetA else (coA, none)).1).offline = true := by
      split
      · simp only [initSubset]
        rcases hl : initSubsetLoop [] subsetA with ⟨m, e⟩
        simp [hoffA]
      · exact hoffA
    simp only [Get]
    rcases hi : (if (!subsetA.isEmpty) = true
        then initSubset coA subsetA else (coA, none)) with ⟨co₂, ierr⟩
    rw [hi] at hA
    simp only at hA
    rcases ierr with _ | e <;> simp [hA]
  · simp only [Get, hguard, if_false, hval, Bool.not_false, if_true]
    simp only [initSubset, hm₀, hoff]
    simp only [Bool.not_true, Bool.false_eq_true, if_false]
    simp only [checkDownload, findSubset, subsetVal]
    split
    · rename_i x co₂ val heq
      split at heq
      · injection heq with h1 h2
        subst h1
        simp
      · exact absurd heq (by simp)
    · rename_i x co₂ heq
      split at heq
      · exact absurd heq (by simp)
      · injection heq with h1 h2
        subst h1
        split <;> simp
  · have hfound : ∀ s ∈ subset,
        (((assocFind (co.deployedFiles.foldl
          (fun m₁ e =>
            if (assocFind m₁ (pathBase (replaceBackslash e.1))).isSome then
              assocSet m₁ (pathBase (replaceBackslash e.1)) true
            else m₁) m₀) s).getD false) = true) ↔
        (∃ e ∈ co.deployedFiles, pathBase (replaceBackslash e.1) = s) := by
      intro s hs
      rw [checkDownload_fold_find, hm₀find s]
      simp [hs, List.any_eq_true]
    simp only [Get, hguard, if_false, hval, Bool.not_false, if_true]
    simp only [initSubset, hm₀, hoff]
    simp only [Bool.not_true, Bool.false_eq_true, if_false]
    simp only [checkDownload, findSubset, subsetVal]
    have hm0 : (∀ s ∈ subset, ∃ e ∈ co.deployedFiles,
        pathBase (replaceBackslash e.1) = s) →
        subset.countP (fun s =>
          !((assocFind (co.deployedFiles.foldl
            (fun m₁ e =>
              if (assocFind m₁ (pathBase (replaceBackslash e.1))).isSome then
                assocSet m₁ (pathBase (replaceBackslash e.1)) true
              else m₁) m₀) s).getD false)) = 0 := by
      intro hall
      rw [List.countP_eq_zero]
      intro s hs
      have hts := (hfound s hs).mpr (hall s hs)
      simp [hts]
    split
    · rename_i x co₂ val heq
      split at heq
      · rename_i hml
        injection heq with h1 h2
        subst h1
        constructor
        · intro hcontra
          simp at hcontra
        · intro hall
          exfalso
          rw [hm0 hall] at hml
          have hempty : subset = [] := List.length_eq_zero.mp (by omega)
          exact hvalid hempty
      · exact absurd heq (by simp)
    · rename_i x co₂ heq
      split at heq
      · exact absurd heq (by simp)
      · rename_i hml
        injection heq with h1 h2
        subst h1
        constructor
        · intro hnone s hs
          rw [← hfound s hs]
          by_contra hcontra
          simp only [Bool.not_eq_true] at hcontra
          have hpos : 0 < subset.countP (fun s =>
              !((assocFind (co.deployedFiles.foldl
                (fun m₁ e =>
                  if (assocFind m₁ (pathBase (replaceBackslash e.1))).isSome then
                    assocSet m₁ (pathBase (replaceBackslash e.1)) true
                  else m₁) m₀) s).getD false)) := by
            rw [List.countP_pos]
            exact ⟨s, hs, by simp [hcontra]⟩
          split at hnone
          · simp at hnone
          · rename_i hcond
            simp at hcond
            have hc := hcond s hs
            simp [hcontra] at hc
        · intro hall
          simp [hm0 hall]
  · intro envA fuelA coA
    simp only [GetAll]
    rcases hg : Get envA fuelA coA [] with ⟨c, w, e⟩
    rcases e with _ | e <;> simp

/-- C7 witness session: offline, with "a.exe" already retrieved. -/
def stC7 : ClickOnce :=
  { deployedFiles := [("a.exe", ⟨.NonAssemblyFile, [7]⟩)],
    baseUrl := some ⟨"http://h/x.application", "/x.application"⟩,
    assembly := some ⟨[], []⟩, offline := true }

/-- Witness for C7: the offline narrower Get succeeds purely from the
accumulated mapping. -/
theorem C7_offline_reuse_witness :
    (Get envC1 3 stC7 ["a.exe"]).2.2 = none :=
  ((C7_offline_reuse envC1 3 stC7 ["a.exe"] (by decide) (by decide)
    (by decide) (by decide) (by decide)).2.2.1).mpr (by decide)

/-- C8: for a `Get` with a valid non-empty subset on an initialized session,
(A) when no requested name was found the call fails with the none-found error
and performs no writes; (B) when some but not all requested names were found
the call still fails (with the not-all-found error), but the save step has
run: every result entry admitted by the subset map is in the returned write
list (writes are not rolled back). Found-ness is read off the returned
state's subset map, exactly as `findSubset` does. -/
theorem C8_subset_failure_modes (env : Env) (fuel : Nat) (co : ClickOnce)
    (subset : List String)
    (hvalid : ¬ subset = [])
    (hne : ∀ s ∈ subset, ¬ s = "")
    (hb : co.baseUrl.isNone = false)
    (ha : co.assembly.isNone = false)
    (hfuel : 0 < fuel) :
    ((∀ s ∈ subset, ¬ subsetVal (Get env fuel co subset).1.subset s = true) →
      (Get env fuel co subset).2.2 = some .NoneOfRequestedFound ∧
      (Get env fuel co subset).2.1 = []) ∧
    ((∃ s ∈ subset, subsetVal (Get env fuel co subset).1.subset s = true) →
     (∃ s ∈ subset, ¬ subsetVal (Get env fuel co subset).1.subset s = true) →
      (Get env fuel co subset).2.2 = some .NotAllRequestedFound ∧
      (¬ (Get env fuel co subset).1.outputDir = "" →
        ∀ e ∈ (Get env fuel co subset).1.deployedFiles, ∀ m,
          (Get env fuel co subset).1.subset = some m →
          (assocFind m (pathBase (replaceBackslash e.1))).isSome = true →
          (pathJoin (Get env fuel co subset).1.outputDir (replaceBackslash e.1),
            e.2.content) ∈ (Get env fuel co subset).2.1)) := by
  have hval : subset.isEmpty = false := by
    rcases subset with _ | ⟨s, l⟩
    · exact absurd rfl hvalid
    · simp
  have hguard : ¬ (co.baseUrl.isNone = true ∨ co.assembly.isNone = true) := by
    simp [hb, ha]
  obtain ⟨m₀, hm₀⟩ : ∃ m, initSubsetLoop [] subset = (m, none) := by
    have h := initSubsetLoop_err_none subset [] hne
    rcases hl : initSubsetLoop [] subset with ⟨m, e⟩
    rw [hl] at h
    simp only at h
    subst h
    exact ⟨m, rfl⟩
  rcases fuel with _ | n
  · omega
  simp only [Get, hguard, if_false, hval, Bool.not_false, if_true]
  simp only [initSubset, hm₀]
  split
  · rename_i x coT val heq
    exfalso
    split at heq
    · rcases hasm : co.assembly with _ | asm
      · rw [hasm] at ha; simp at ha
      · rw [hasm] at heq
        simp only at heq
        have hnone : ((coT, some val) : ClickOnce × Option CoErr).2 = none := by
          rw [← heq]
          exact retrieveAllDeployedFiles_err_none env n _ asm
        simp at hnone
    · exact absurd heq (by simp)
  · rename_i x coT heq
    clear heq
    simp only [findSubset]
    split
    · rename_i x₂ co₄ val₂ heq₂
      split at heq₂
      · rename_i hml
        injection heq₂ with h1 h2
        subst h1
        injection h2 with h3
        subst h3
        constructor
        · intro _
          exact ⟨rfl, rfl⟩
        · intro hfound hmiss
          exfalso
          rcases hfound with ⟨s, hs, hsv⟩
          rw [Nat.zero_add] at hml
          have hall := List.countP_eq_length.mp hml
          have hms := hall s hs
          simp only at hms
          simp_all
      · exact absurd heq₂ (by simp)
    · rename_i x₂ co₄ heq₂
      split at heq₂
      · exact absurd heq₂ (by simp)
      · rename_i hml
        injection heq₂ with h1 h2
        subst h1
        split
        · rename_i hcond
          constructor
          · intro hall
            exfalso
            apply hml
            rw [Nat.zero_add, List.countP_eq_length]
            intro s hs
            have hx := hall s hs
            simp only at hx
            simp_all
          · intro hfound hmiss
            refine ⟨rfl, ?_⟩
            intro hout e he m hm hfind
            have hm2 : coT.subset = some m := hm
            have he2 : e ∈ coT.deployedFiles := he
            split
            · refine List.mem_filterMap.mpr ⟨e, he2, ?_⟩
              rcases Option.isSome_iff_exists.mp hfind with ⟨v, hv⟩
              simp [saveDeployedFile, hm2, hv]
            · rename_i hcond₂
              exfalso
              exact hout (not_not.mp hcond₂)
        · rename_i hcond
          constructor
          · intro hall
            exfalso
            apply hml
            rw [Nat.zero_add, List.countP_eq_length]
            intro s hs
            have hx := hall s hs
            simp only at hx
            simp_all
          · intro hfound hmiss
            exfalso
            rcases hmiss with ⟨s, hs, hsv⟩
            have hx : ¬ subsetVal coT.subset s = true := hsv
            have hpos : 0 < subset.countP (fun s => !(subsetVal coT.subset s)) := by
              rw [List.countP_pos]
              exact ⟨s, hs, by simp [hx]⟩
            apply hcond
            refine ⟨by simp [hval], ?_⟩
            intro hzero
            have hz2 : 0 + subset.countP (fun s => !(subsetVal coT.subset s)) = 0 :=
              hzero
            omega

/-- C8 witness session: offline, "a.exe" retrieved, output directory "o". -/
def stC8 : ClickOnce :=
  { deployedFiles := [("a.exe", ⟨.NonAssemblyFile, [7]⟩)],
    baseUrl := some ⟨"http://h/x.application", "/x.application"⟩,
    assembly := some ⟨[], []⟩, offline := true, outputDir := "o" }

/-- Witness for C8: requesting {a.exe, b.dll} when only a.exe is available
fails with the not-all-found error, yet a.exe has been persisted. -/
theorem C8_subset_failure_modes_witness :
    (Get envC1 3 stC8 ["a.exe", "b.dll"]).2.2 = some .NotAllRequestedFound ∧
    (pathJoin (Get envC1 3 stC8 ["a.exe", "b.dll"]).1.outputDir
        (replaceBackslash "a.exe"), [7]) ∈
      (Get envC1 3 stC8 ["a.exe", "b.dll"]).2.1 := by
  have h := (C8_subset_failure_modes envC1 3 stC8 ["a.exe", "b.dll"]
    (by decide) (by decide) (by decide) (by decide) (by decide)).2
    (by decide) (by decide)
  refine ⟨h.1, ?_⟩
  exact h.2 (by decide) ("a.exe", ⟨.NonAssemblyFile, [7]⟩) (by decide)
    [("a.exe", true), ("b.dll", false)] (by decide) (by decide)
